import Mathlib

/-! ## Verification of the Medannote batch pipeline and job tracker

Shallow embedding, in Lean 4, of the parts of the repository that the
verification claims are about:

* `src/app/routers/api_batch.py` — safe ZIP extraction (`is_safe_path`,
  `extract_zip_safely`), file classification (`group_signal_files`,
  `categorize_files`) and the per-category dispatch / result-assembly loop of
  `process_batch_zip`;
* `src/app/job_tracker.py` — the `JobTracker` registry (`create_job`,
  `update_status`, `set_result`, `set_error`, `_cleanup_old_jobs`).

Modelling conventions:

* POSIX paths are Lean `String`s; `os.path` functions are embedded over the
  character list of the string (splitting on the slash character).
* Machine-level details that the claims do not touch (actual bytes of files,
  the HTTP layer) are abstracted: file contents never influence the control
  flow under study.
* `uuid.uuid4()` token generation is modelled by a fresh-counter field
  `nextId`; `datetime.utcnow()` by a logical clock `now` that ticks on every
  operation that reads the clock.  ISO-8601 timestamp strings compare
  chronologically, so the `Nat` clock is order-faithful.
* Python's float division in the compression-ratio test is embedded as the
  exact rational comparison `u > ratio * c`; for the value range admitted by
  the preceding size check (≤ 500 MiB, well below 2^53) the two agree.
* The disk effect of `ZipFile.extract` is modelled at the path level: the zip
  library (as documented by CPython) drops empty, `.` and `..` components and
  leading separators of a member name before joining it under the extraction
  directory.
-/

namespace Medannote

/-! ## POSIX path embedding (`os.path`, `pathlib`) -/

/-- Split a character list at `/` separators (auxiliary for `pathParts`). -/
def splitSlashAux : List Char → List Char → List (List Char)
  | [], cur => [cur.reverse]
  | c :: rest, cur =>
      if c = '/' then cur.reverse :: splitSlashAux rest [] else splitSlashAux rest (c :: cur)

/-- The slash-separated components of a path string (empty components kept,
mirroring Python's `str.split('/')`). -/
def pathParts (s : String) : List String := (splitSlashAux s.data []).map (fun l => ⟨l⟩)

/-- One normalisation step of `os.path.normpath` on an absolute path: empty
and `.` components vanish, `..` pops the previous component (a no-op at the
root), anything else is appended. -/
def normStep (acc : List String) (p : String) : List String :=
  if p = "" ∨ p = "." then acc
  else if p = ".." then acc.dropLast
  else acc ++ [p]

/-- Normalised component list of an absolute path — the component list of
Python's `os.path.abspath` (our callers only ever pass absolute paths, so no
working-directory prefixing is involved). -/
def absParts (s : String) : List String := (pathParts s).foldl normStep []

/-- Render an absolute path from its components. -/
def renderAbs (parts : List String) : String := "/" ++ String.intercalate "/" parts

/-- `os.path.abspath` on an absolute input: normalise and re-render. -/
def abspath (s : String) : String := renderAbs (absParts s)

/-- Python's `str.startswith`: character-level prefix test. -/
def strStartsWith (s pre : String) : Bool := pre.data.isPrefixOf s.data

/-- `os.path.join a b` for POSIX: an absolute `b` replaces `a`, otherwise the
two are joined with a separator. -/
def ospath_join (a b : String) : String :=
  if strStartsWith b "/" then b
  else if a.data.getLast? = some '/' then a ++ b else a ++ "/" ++ b

/-- `pathlib.Path(p).name`: the final path component. -/
def pathName (p : String) : String := ⟨(splitSlashAux p.data []).getLastD []⟩

/-- Index of the last `.` in a character list (`str.rfind('.')`), if any. -/
def lastDotIdx : List Char → Option Nat
  | [] => none
  | c :: rest =>
      match lastDotIdx rest with
      | some i => some (i + 1)
      | none => if c = '.' then some 0 else none

/-- `pathlib.Path(p).stem`: the final component with its suffix removed; the
suffix exists only when the last dot is neither the first nor the last
character of the name (CPython's implementation). -/
def pathStem (p : String) : String :=
  let name := pathName p
  match lastDotIdx name.data with
  | some i => if 0 < i ∧ i < name.data.length - 1 then ⟨name.data.take i⟩ else name
  | none => name

/-- `pathlib.Path(p).suffix`: the extension including the dot, or `""`. -/
def pathSuffix (p : String) : String :=
  let name := pathName p
  match lastDotIdx name.data with
  | some i => if 0 < i ∧ i < name.data.length - 1 then ⟨name.data.drop i⟩ else ""
  | none => ""

/-- `str.lower`, character by character. -/
def strToLower (s : String) : String := ⟨s.data.map Char.toLower⟩

/-! ## ArchiveGuard — `is_safe_path` and `extract_zip_safely`
(`src/app/routers/api_batch.py`, lines 22–103) -/

def IMAGE_EXTENSIONS : List String := [".dcm", ".dicom"]

def SIGNAL_EXTENSIONS : List String := [".hea", ".dat", ".qrs", ".edf", ".eeg"]

def TEXT_EXTENSIONS : List String := [".csv", ".xlsx", ".docx", ".txt", ".json"]

def MAX_FILES_IN_ZIP : Nat := 1000

def MAX_EXTRACTION_SIZE : Nat := 500 * 1024 * 1024

def MAX_COMPRESSION_RATIO : Nat := 100

/-- `is_safe_path(base_path, file_path)`: CHECK BY STRING PREFIX — the source
returns `abs_file.startswith(abs_base)` on the two `os.path.abspath` results. -/
def is_safe_path (base_path file_path : String) : Bool :=
  strStartsWith (abspath file_path) (abspath base_path)

/-- Descendant test by absolute-path containment.  Modelled from the spec:
"resolves the candidate destination path and verifies it is a descendant of
`destination_root` using absolute-path containment, not string prefix matching
alone".  Spec-side definition, used only to compare against the source's
`is_safe_path`. -/
def resolvedInsideRoot (base_path file_path : String) : Bool :=
  (absParts base_path).isPrefixOf (absParts file_path)

/-- One member of an uploaded ZIP archive, as seen through `zf.infolist()`:
its declared name, directory flag and declared uncompressed size. -/
structure ZipMember where
  filename : String
  isDir : Bool
  fileSize : Nat
deriving DecidableEq, Repr

/-- An uploaded archive: whether `zipfile.is_zipfile` accepts the blob, the
member list, and the on-disk size of the saved blob (`os.path.getsize`). -/
structure ZipUpload where
  isValidZip : Bool
  members : List ZipMember
  compressedSize : Nat
deriving DecidableEq, Repr

/-- Result of `extract_zip_safely` plus the observable disk state of the
destination root after the call: `success`, `errorMsg` and `extractedFiles`
are the returned triple; `diskFiles` lists the paths at which files remain
inside the destination root when the function returns. -/
structure ExtractOutcome where
  success : Bool
  errorMsg : String
  extractedFiles : List String
  diskFiles : List String
deriving DecidableEq, Repr

def invalidZipMsg : String := "Le fichier n\x27est pas un ZIP valide"

def tooLargeMsg : String :=
  "Le ZIP est trop volumineux (max " ++ toString (MAX_EXTRACTION_SIZE / (1024 * 1024)) ++ "MB)"

def ratioMsg : String := "ZIP suspect détecté (ratio de compression trop élevé)"

def tooManyMsg : String :=
  "Trop de fichiers dans le ZIP (max " ++ toString MAX_FILES_IN_ZIP ++ ")"

/-- Path at which `ZipFile.extract` writes a member: CPython documents that
the zip library strips leading separators and drops empty, `.` and `..`
components of the member name before joining it under the target directory. -/
def zfExtractTarget (dir filename : String) : String :=
  let parts := (pathParts filename).filter (fun p => decide (p ≠ "" ∧ p ≠ "." ∧ p ≠ ".."))
  dir ++ "/" ++ String.intercalate "/" parts

/-- `extract_zip_safely(zip_file, extract_dir)`.  The saved blob `upload.zip`
is written first; validity, total-size, compression-ratio and member-count
checks each return early (leaving the blob on disk); surviving members are
extracted unless they are directories or fail `is_safe_path`; the blob is
removed only on the success path.  The returned `extractedFiles` records the
un-normalised joined member paths exactly as the source appends them. -/
def extract_zip_safely (zip : ZipUpload) (extractDir : String) : ExtractOutcome :=
  let zipPath := ospath_join extractDir "upload.zip"
  if !zip.isValidZip then
    ⟨false, invalidZipMsg, [], [zipPath]⟩
  else
    let compressedSize := zip.compressedSize
    let uncompressedSize := (zip.members.map (fun i => i.fileSize)).sum
    if uncompressedSize > MAX_EXTRACTION_SIZE then
      ⟨false, tooLargeMsg, [], [zipPath]⟩
    else if 0 < compressedSize ∧ uncompressedSize > MAX_COMPRESSION_RATIO * compressedSize then
      ⟨false, ratioMsg, [], [zipPath]⟩
    else if zip.members.length > MAX_FILES_IN_ZIP then
      ⟨false, tooManyMsg, [], [zipPath]⟩
    else
      let accepted := zip.members.filter fun m =>
        !m.isDir && is_safe_path extractDir (ospath_join extractDir m.filename)
      let extracted := accepted.map (fun m => ospath_join extractDir m.filename)
      let written := accepted.map (fun m => zfExtractTarget extractDir m.filename)
      ⟨true, "", extracted, written.filter (fun p => decide (p ≠ zipPath))⟩

/-! ## FileClassifier — `group_signal_files` and `categorize_files`
(`src/app/routers/api_batch.py`, lines 106–161) -/

/-- One step of the grouping dictionary update in `group_signal_files`: the
insertion-ordered association list from stem to the files seen with that stem
(Python dicts preserve insertion order; appending to an existing key keeps its
position). -/
def insertGrouped (acc : List (String × List String)) (filePath : String) : List (String × List String) :=
  let baseName := pathStem filePath
  if acc.any (fun p => decide (p.1 = baseName)) then
    acc.map (fun p => if p.1 = baseName then (p.1, p.2 ++ [filePath]) else p)
  else
    acc ++ [(baseName, [filePath])]

/-- `group_signal_files(files)`: group by filename stem into an
insertion-ordered dict and return the value lists. -/
def group_signal_files (files : List String) : List (List String) :=
  (files.foldl insertGrouped []).map (fun p => p.2)

/-- First-seen-order deduplication (helper for the grouping
characterisation). -/
def firstSeen (l : List String) : List String :=
  l.foldl (fun acc x => if x ∈ acc then acc else acc ++ [x]) []

/-- Grouping as the spec words it: stems in first-seen order, each mapped to
the sub-list of input files carrying that stem in input order.  Spec-side
definition, compared against the source's `group_signal_files`. -/
def groupSignalFilesSpec (files : List String) : List (List String) :=
  (firstSeen (files.map pathStem)).map
    (fun st => files.filter (fun f => decide (pathStem f = st)))

/-- The four category buckets while `categorize_files` is still folding
(the signal bucket still flat). -/
structure RawCats where
  imgs : List String
  sigs : List String
  txts : List String
  unks : List String
deriving DecidableEq, Repr

/-- The returned categorisation: flat image/text/unknown lists, signal files
already grouped. -/
structure CategorizedBundle where
  images : List String
  signals : List (List String)
  text : List String
  unknown : List String
deriving DecidableEq, Repr

/-- `categorize_files(files)`: route each file by its lower-cased suffix into
one of the four buckets, then group the signal bucket (the source only calls
`group_signal_files` when the bucket is non-empty; the empty bucket stays
`[]`). -/
def categorize_files (files : List String) : CategorizedBundle :=
  let acc := files.foldl
    (fun (acc : RawCats) f =>
      let ext := strToLower (pathSuffix f)
      if IMAGE_EXTENSIONS.contains ext then { acc with imgs := acc.imgs ++ [f] }
      else if SIGNAL_EXTENSIONS.contains ext then { acc with sigs := acc.sigs ++ [f] }
      else if TEXT_EXTENSIONS.contains ext then { acc with txts := acc.txts ++ [f] }
      else { acc with unks := acc.unks ++ [f] })
    ⟨[], [], [], []⟩
  { images := acc.imgs
    signals := if acc.sigs.isEmpty then [] else group_signal_files acc.sigs
    text := acc.txts
    unknown := acc.unks }

/-! ## CategoryDispatcher and ResultAssembler — the per-category loop of
`process_batch_zip` (`src/app/routers/api_batch.py`, lines 297–371) -/

/-- The three dispatchable categories, in the source's fixed iteration order
`['images', 'signals', 'text']`. -/
inductive Cat where
  | images
  | signals
  | text
deriving DecidableEq, Repr

def catName : Cat → String
  | Cat.images => "images"
  | Cat.signals => "signals"
  | Cat.text => "text"

/-- Whether a category has input in the bundle (the loop's
`if not categorized[category]: continue` test; the source's `signals` branch
is textually separate but performs the same emptiness test). -/
def catInput (bundle : CategorizedBundle) : Cat → Bool
  | Cat.images => !bundle.images.isEmpty
  | Cat.signals => !bundle.signals.isEmpty
  | Cat.text => !bundle.text.isEmpty

/-- Outcome of one `process_file_category` call — the `(success, zip_bytes,
error_message)` triple.  The call reaches an external conversion pipeline
over HTTP, so the dispatch loop is verified for every possible outcome
function. -/
structure DispatchOutcome where
  success : Bool
  zipContent : List Nat
  errorMsg : String

/-- The dispatch loop of `process_batch_zip`: visit `images`, `signals`,
`text` in order, skip a category with no input, record a success in `results`
and a failure in `errors`, never stopping early. -/
def process_categories (bundle : CategorizedBundle) (outcome : Cat → DispatchOutcome) :
    List (Cat × List Nat) × List (Cat × String) :=
  [Cat.images, Cat.signals, Cat.text].foldl
    (fun acc c =>
      if catInput bundle c then
        let o := outcome c
        if o.success then (acc.1 ++ [(c, o.zipContent)], acc.2)
        else (acc.1, acc.2 ++ [(c, o.errorMsg)])
      else acc)
    ([], [])

/-- Dictionary lookup over the insertion-ordered result/error lists. -/
def lookupCat {α : Type} (xs : List (Cat × α)) (c : Cat) : Option α :=
  (xs.find? (fun p => decide (p.1 = c))).map (fun p => p.2)

/-- Entry names of the final archive: one `<category>_results.zip` per
success, in `results` insertion order, then the report. -/
def final_zip_entries (results : List (Cat × List Nat)) : List String :=
  results.map (fun p => catName p.1 ++ "_results.zip") ++ ["processing_report.txt"]

/-- The per-category outcome lines of the processing report (`✓`/`✗`/`-`), in
the fixed category order. -/
def report_outcome_lines (results : List (Cat × List Nat)) (errors : List (Cat × String)) :
    List String :=
  [Cat.images, Cat.signals, Cat.text].map fun c =>
    match lookupCat results c with
    | some _ => "✓ " ++ catName c ++ ": Traité avec succès"
    | none =>
        match lookupCat errors c with
        | some e => "✗ " ++ catName c ++ ": Erreur - " ++ e
        | none => "- " ++ catName c ++ ": Aucun fichier à traiter"

/-! ## JobTracker (`src/app/job_tracker.py`) -/

inductive JobStatus where
  | pending
  | processing
  | completed
  | failed
  | cancelled
deriving DecidableEq, Repr

/-- The membership test `status in [COMPLETED, FAILED, CANCELLED]`. -/
def isTerminalStatus : JobStatus → Bool
  | JobStatus.completed => true
  | JobStatus.failed => true
  | JobStatus.cancelled => true
  | _ => false

/-- The `JobProgress` record.  Timestamps are logical-clock values (`Option
Nat`); the result payload and metadata mapping are carried opaquely. -/
structure JobProgress where
  jobId : Nat
  status : JobStatus
  progressPercent : Int
  message : String
  createdAt : Nat
  startedAt : Option Nat
  completedAt : Option Nat
  result : Option (List (String × String))
  error : Option String
  metadata : List (String × String)
deriving DecidableEq, Repr

/-- The `JobTracker` state: the insertion-ordered job dictionary (a Python
dict), the capacity bound, the fresh-token counter standing for `uuid4`, and
the logical clock standing for `utcnow`. -/
structure JobTracker where
  jobs : List (Nat × JobProgress)
  maxJobs : Nat
  nextId : Nat
  now : Nat
deriving DecidableEq, Repr

/-- `job_id in self.jobs` / `self.jobs.get(job_id)`. -/
def lookupJob (jobs : List (Nat × JobProgress)) (k : Nat) : Option JobProgress :=
  (jobs.find? (fun p => decide (p.1 = k))).map (fun p => p.2)

/-- `self.jobs[job_id] = v`: replace in place when the key exists (keeping
its dict position), append otherwise. -/
def setJob (jobs : List (Nat × JobProgress)) (k : Nat) (v : JobProgress) :
    List (Nat × JobProgress) :=
  if jobs.any (fun p => decide (p.1 = k)) then
    jobs.map (fun p => if p.1 = k then (k, v) else p)
  else
    jobs ++ [(k, v)]

/-- `_cleanup_old_jobs`: collect the terminal jobs, stable-sort them by
completion time (`completed_at or ""` — an absent stamp sorts first), and
delete the oldest `max(1, n // 10)` of them from the dict by job id. -/
def cleanupOldJobs (jobs : List (Nat × JobProgress)) : List (Nat × JobProgress) :=
  let completedJobs := jobs.filter (fun p => isTerminalStatus p.2.status)
  let sorted := completedJobs.mergeSort
    (fun a b => decide (a.2.completedAt.getD 0 ≤ b.2.completedAt.getD 0))
  let removeCount := max 1 (completedJobs.length / 10)
  let toRemove := sorted.take removeCount
  jobs.filter (fun p => !toRemove.any (fun q => decide (q.1 = p.1)))

/-- The fresh Pending record inserted by `create_job`. -/
def newPendingJob (t : JobTracker) (metadata : Option (List (String × String))) : JobProgress :=
  { jobId := t.nextId, status := JobStatus.pending, progressPercent := 0, message := ""
    createdAt := t.now, startedAt := none, completedAt := none, result := none
    error := none, metadata := metadata.getD [] }

/-- `create_job(metadata)`: allocate a fresh token, clean up when at
capacity, insert the new Pending record, return the token. -/
def create_job (t : JobTracker) (metadata : Option (List (String × String))) :
    Nat × JobTracker :=
  let jobId := t.nextId
  let jobs1 := if t.jobs.length ≥ t.maxJobs then cleanupOldJobs t.jobs else t.jobs
  (jobId,
    { t with jobs := setJob jobs1 jobId (newPendingJob t metadata)
             nextId := t.nextId + 1
             now := t.now + 1 })

/-- The body of `update_status` acting on one found record, in the statement
order of the source: set the status unconditionally, clamp and store a
supplied progress, store a supplied message, set `started_at` the first time
Processing is seen, and on a terminal status stamp `completed_at` and force
progress to 100 for Completed. -/
def applyStatusUpdate (job0 : JobProgress) (status : JobStatus)
    (progress : Option Int) (message : Option String) (now : Nat) : JobProgress :=
  let job1 := { job0 with status := status }
  let job2 :=
    match progress with
    | some p => { job1 with progressPercent := min 100 (max 0 p) }
    | none => job1
  let job3 :=
    match message with
    | some m => { job2 with message := m }
    | none => job2
  let job4 :=
    if decide (status = JobStatus.processing) && job3.startedAt.isNone then
      { job3 with startedAt := some now }
    else job3
  if isTerminalStatus status then
    { job4 with completedAt := some now
                progressPercent :=
                  if status = JobStatus.completed then 100 else job4.progressPercent }
  else job4

/-- `update_status(job_id, status, progress, message)`: a no-op when the
token is absent, otherwise rewrite the found record with
`applyStatusUpdate`. -/
def update_status (t : JobTracker) (jobId : Nat) (status : JobStatus)
    (progress : Option Int) (message : Option String) : JobTracker :=
  match lookupJob t.jobs jobId with
  | none => t
  | some job0 =>
      { t with jobs := setJob t.jobs jobId (applyStatusUpdate job0 status progress message t.now)
               now := t.now + 1 }

/-- `set_result(job_id, result)`: attach the payload when the token exists;
status untouched. -/
def set_result (t : JobTracker) (jobId : Nat) (result : List (String × String)) : JobTracker :=
  match lookupJob t.jobs jobId with
  | none => t
  | some job => { t with jobs := setJob t.jobs jobId { job with result := some result } }

/-- `set_error(job_id, error)`: when the token exists, store the error text,
force the status to Failed and stamp `completed_at`. -/
def set_error (t : JobTracker) (jobId : Nat) (error : String) : JobTracker :=
  match lookupJob t.jobs jobId with
  | none => t
  | some job =>
      { t with
        jobs := setJob t.jobs jobId
          { job with error := some error, status := JobStatus.failed, completedAt := some t.now }
        now := t.now + 1 }

/-- The registry's structural invariant: every stored key was issued by the
counter, and keys are pairwise distinct (as in a Python dict). -/
def TrackerInv (t : JobTracker) : Prop :=
  (∀ p ∈ t.jobs, p.1 < t.nextId) ∧ (t.jobs.map Prod.fst).Nodup

/-- An empty tracker with the source's default capacity of 1000. -/
def freshTracker : JobTracker := ⟨[], 1000, 0, 0⟩

/-! ## Association-list lemmas for the job dictionary -/

lemma lookupJob_eq_none (jobs : List (Nat × JobProgress)) (k : Nat)
    (h : ∀ p ∈ jobs, p.1 ≠ k) : lookupJob jobs k = none := by
  induction jobs with
  | nil => rfl
  | cons hd tl ih =>
      have hhd : hd.1 ≠ k := h hd (List.mem_cons_self hd tl)
      simp only [lookupJob, List.find?] at ih ⊢
      rw [decide_eq_false hhd]
      exact ih fun p hp => h p (List.mem_cons_of_mem hd hp)

lemma lookupJob_mapReplace (jobs : List (Nat × JobProgress)) (k : Nat) (v : JobProgress) :
    lookupJob (jobs.map (fun p => if p.1 = k then (k, v) else p)) k =
      if jobs.any (fun p => decide (p.1 = k)) then some v else none := by
  induction jobs with
  | nil => rfl
  | cons hd tl ih =>
      by_cases h : hd.1 = k
      · simp [lookupJob, List.find?, h]
      · simp only [List.map_cons, List.any_cons, if_neg h]
        simp only [lookupJob, List.find?, decide_eq_false h, Bool.false_or] at ih ⊢
        exact ih

lemma lookupJob_append_new (jobs : List (Nat × JobProgress)) (k : Nat) (v : JobProgress)
    (h : ∀ p ∈ jobs, p.1 ≠ k) : lookupJob (jobs ++ [(k, v)]) k = some v := by
  induction jobs with
  | nil => simp [lookupJob, List.find?]
  | cons hd tl ih =>
      have hhd : hd.1 ≠ k := h hd (List.mem_cons_self hd tl)
      simp only [List.cons_append, lookupJob, List.find?, decide_eq_false hhd] at ih ⊢
      exact ih fun p hp => h p (List.mem_cons_of_mem hd hp)

lemma setJob_append (jobs : List (Nat × JobProgress)) (k : Nat) (v : JobProgress)
    (h : ∀ p ∈ jobs, p.1 ≠ k) : setJob jobs k v = jobs ++ [(k, v)] := by
  unfold setJob
  rw [if_neg]
  intro hany
  obtain ⟨p, hp, hpk⟩ := List.any_eq_true.mp hany
  exact h p hp (of_decide_eq_true hpk)

lemma lookupJob_setJob_self (jobs : List (Nat × JobProgress)) (k : Nat) (v : JobProgress) :
    lookupJob (setJob jobs k v) k = some v := by
  by_cases h : jobs.any (fun p => decide (p.1 = k)) = true
  · unfold setJob
    rw [if_pos h, lookupJob_mapReplace, if_pos h]
  · have h' : ∀ p ∈ jobs, p.1 ≠ k := by
      intro p hp hpk
      exact h (List.any_eq_true.mpr ⟨p, hp, decide_eq_true hpk⟩)
    rw [setJob_append jobs k v h', lookupJob_append_new jobs k v h']

/-- Unfolding lemma: `update_status` on an absent token is the identity. -/
lemma update_status_absent (t : JobTracker) (tok : Nat) (s : JobStatus)
    (p : Option Int) (m : Option String) (h : lookupJob t.jobs tok = none) :
    update_status t tok s p m = t := by
  unfold update_status
  rw [h]

/-- Unfolding lemma: `update_status` on a found token rewrites the record. -/
lemma update_status_found (t : JobTracker) (tok : Nat) (s : JobStatus)
    (p : Option Int) (m : Option String) (j : JobProgress)
    (h : lookupJob t.jobs tok = some j) :
    update_status t tok s p m =
      { t with jobs := setJob t.jobs tok (applyStatusUpdate j s p m t.now)
               now := t.now + 1 } := by
  unfold update_status
  rw [h]

lemma applyStatusUpdate_completed (j : JobProgress) (p : Option Int) (m : Option String)
    (now : Nat) :
    (applyStatusUpdate j JobStatus.completed p m now).progressPercent = 100 ∧
    (applyStatusUpdate j JobStatus.completed p m now).completedAt = some now := by
  cases p <;> cases m <;> simp [applyStatusUpdate, isTerminalStatus]

lemma applyStatusUpdate_progress_bounds (j : JobProgress) (s : JobStatus) (p : Int)
    (m : Option String) (now : Nat) :
    0 ≤ (applyStatusUpdate j s (some p) m now).progressPercent ∧
    (applyStatusUpdate j s (some p) m now).progressPercent ≤ 100 := by
  have h1 : (0 : Int) ≤ min 100 (max 0 p) := le_min (by norm_num) (le_max_left 0 p)
  have h2 : min 100 (max 0 p) ≤ 100 := min_le_left _ _
  cases m <;> cases s <;>
    simp [applyStatusUpdate, isTerminalStatus] <;>
    constructor <;>
    (try split) <;>
    first | exact h1 | exact h2 | norm_num

/-! ## Lemmas about `_cleanup_old_jobs` -/

lemma cleanupOldJobs_sub (jobs : List (Nat × JobProgress)) {p : Nat × JobProgress}
    (h : p ∈ cleanupOldJobs jobs) : p ∈ jobs :=
  List.mem_of_mem_filter h

/-- Eviction never touches a non-terminal job (given distinct keys). -/
lemma cleanupOldJobs_keeps_nonterminal (jobs : List (Nat × JobProgress))
    (hnd : (jobs.map Prod.fst).Nodup) {p : Nat × JobProgress} (hp : p ∈ jobs)
    (hnt : isTerminalStatus p.2.status = false) : p ∈ cleanupOldJobs jobs := by
  refine List.mem_filter.mpr ⟨hp, ?_⟩
  have hany : (((jobs.filter (fun r => isTerminalStatus r.2.status)).mergeSort
      (fun a b => decide (a.2.completedAt.getD 0 ≤ b.2.completedAt.getD 0))).take
        (max 1 ((jobs.filter (fun r => isTerminalStatus r.2.status)).length / 10))).any
          (fun q => decide (q.1 = p.1)) = false := by
    refine List.any_eq_false.mpr ?_
    intro q hq hqp
    have hq1 : q ∈ jobs.filter (fun r => isTerminalStatus r.2.status) :=
      List.mem_mergeSort.mp (List.mem_of_mem_take hq)
    obtain ⟨hqj, hqt⟩ := List.mem_filter.mp hq1
    have : q = p := List.inj_on_of_nodup_map hnd hqj hp (of_decide_eq_true hqp)
    rw [this, hnt] at hqt
    exact Bool.false_ne_true hqt
  rw [hany]
  rfl

/-- An evicted job is terminal, and its completion stamp is no later than
that of any surviving terminal job (the oldest are evicted first). -/
lemma cleanupOldJobs_removes_oldest_terminal (jobs : List (Nat × JobProgress))
    (hnd : (jobs.map Prod.fst).Nodup) {p : Nat × JobProgress} (hp : p ∈ jobs)
    (hrem : p ∉ cleanupOldJobs jobs) :
    isTerminalStatus p.2.status = true ∧
    ∀ q ∈ jobs, isTerminalStatus q.2.status = true → q ∈ cleanupOldJobs jobs →
      p.2.completedAt.getD 0 ≤ q.2.completedAt.getD 0 := by
  set le : (Nat × JobProgress) → (Nat × JobProgress) → Bool :=
    fun a b => decide (a.2.completedAt.getD 0 ≤ b.2.completedAt.getD 0) with hle
  set completedJobs := jobs.filter (fun r => isTerminalStatus r.2.status) with hcj
  set sorted := completedJobs.mergeSort le with hsorted
  set removeCount := max 1 (completedJobs.length / 10) with hrc
  have hval : cleanupOldJobs jobs =
      jobs.filter (fun r => !(sorted.take removeCount).any (fun q => decide (q.1 = r.1))) := rfl
  have hany : (sorted.take removeCount).any (fun q => decide (q.1 = p.1)) = true := by
    by_contra hne
    have hfalse : (sorted.take removeCount).any (fun q => decide (q.1 = p.1)) = false :=
      Bool.eq_false_iff.mpr hne
    exact hrem (hval ▸ List.mem_filter.mpr ⟨hp, by rw [hfalse]; rfl⟩)
  obtain ⟨r, hrtake, hrp⟩ := List.any_eq_true.mp hany
  have hr1 : r ∈ completedJobs := List.mem_mergeSort.mp (List.mem_of_mem_take hrtake)
  obtain ⟨hrj, hrt⟩ := List.mem_filter.mp hr1
  have hrpe : r = p := List.inj_on_of_nodup_map hnd hrj hp (of_decide_eq_true hrp)
  subst hrpe
  refine ⟨hrt, ?_⟩
  intro q hq hqt hqin
  have hqc : q ∈ completedJobs := List.mem_filter.mpr ⟨hq, hqt⟩
  have hqs : q ∈ sorted := List.mem_mergeSort.mpr hqc
  have hqnot : q ∉ sorted.take removeCount := by
    intro hqtake
    have hqpred := (List.mem_filter.mp (hval ▸ hqin)).2
    have : (sorted.take removeCount).any (fun r' => decide (r'.1 = q.1)) = true :=
      List.any_eq_true.mpr ⟨q, hqtake, decide_eq_true rfl⟩
    rw [this] at hqpred
    exact Bool.false_ne_true hqpred
  have hqdrop : q ∈ sorted.drop removeCount := by
    have hqmem : q ∈ sorted.take removeCount ++ sorted.drop removeCount := by
      rw [List.take_append_drop]
      exact hqs
    rcases List.mem_append.mp hqmem with h | h
    · exact absurd h hqnot
    · exact h
  have htrans : ∀ a b c, le a b = true → le b c = true → le a c = true := by
    intro a b c hab hbc
    simp only [hle, decide_eq_true_eq] at hab hbc ⊢
    omega
  have htotal : ∀ a b, (le a b || le b a) = true := by
    intro a b
    simp only [hle, Bool.or_eq_true, decide_eq_true_eq]
    omega
  have hsort := List.sorted_mergeSort htrans htotal completedJobs
  rw [← hsorted, ← List.take_append_drop removeCount sorted] at hsort
  have hrel := (List.pairwise_append.mp hsort).2.2 r hrtake q hqdrop
  simpa only [hle, decide_eq_true_eq] using hrel

/-- When no job is terminal, eviction removes nothing. -/
lemma cleanupOldJobs_eq_self (jobs : List (Nat × JobProgress))
    (h : ∀ p ∈ jobs, isTerminalStatus p.2.status = false) :
    cleanupOldJobs jobs = jobs := by
  have hcj : jobs.filter (fun r => isTerminalStatus r.2.status) = [] :=
    List.filter_eq_nil_iff.mpr (fun p hp => by rw [h p hp]; exact Bool.false_ne_true)
  simp only [cleanupOldJobs, hcj, List.mergeSort_nil, List.take_nil, List.any_nil,
    Bool.not_false, List.filter_true]

/-! ## Claim theorems about archive extraction -/

/-- C2 counterexample: the claim FAILS — `is_safe_path` verifies by string
prefix (`abs_file.startswith(abs_base)`), not by absolute-path containment.
With destination root `/tmp/x`, the member `../xb/evil.txt` resolves to
`/tmp/xb/evil.txt`, which is NOT a descendant of the root, yet the prefix
check passes and the member appears in the returned file list. -/
theorem prefix_check_admits_sibling_escape :
    (let dir := "/tmp/x"
     let zip : ZipUpload := ⟨true, [⟨"../xb/evil.txt", false, 10⟩], 10⟩
     let res := extract_zip_safely zip dir
     resolvedInsideRoot dir (ospath_join dir "../xb/evil.txt") = false ∧
     is_safe_path dir (ospath_join dir "../xb/evil.txt") = true ∧
     res.success = true ∧
     ospath_join dir "../xb/evil.txt" ∈ res.extractedFiles) := by
  decide

/-- C2 (amended): a member is excluded from the returned file list exactly
when its resolved absolute path fails the STRING-PREFIX test against the
resolved root — this defeats plain `../` escapes such as `../../etc/passwd`
(whose resolved path does not extend the root string) and extraction of
every other valid member still succeeds, but the test is prefix matching,
not absolute-path containment (see the counterexample). -/
theorem extraction_excludes_members_by_prefix_check (zip : ZipUpload) (dir : String)
    (hv : zip.isValidZip = true)
    (hs : (zip.members.map (fun i => i.fileSize)).sum ≤ MAX_EXTRACTION_SIZE)
    (hr : ¬(0 < zip.compressedSize ∧
        (zip.members.map (fun i => i.fileSize)).sum > MAX_COMPRESSION_RATIO * zip.compressedSize))
    (hc : zip.members.length ≤ MAX_FILES_IN_ZIP) :
    (extract_zip_safely zip dir).success = true ∧
    (∀ p ∈ (extract_zip_safely zip dir).extractedFiles,
      ∃ m ∈ zip.members, m.isDir = false ∧ p = ospath_join dir m.filename ∧
        is_safe_path dir p = true) ∧
    (∀ m ∈ zip.members, m.isDir = false →
      is_safe_path dir (ospath_join dir m.filename) = true →
      ospath_join dir m.filename ∈ (extract_zip_safely zip dir).extractedFiles) := by
  refine ⟨?_, ?_, ?_⟩ <;>
    simp only [extract_zip_safely, hv, Bool.not_true, Bool.false_eq_true, if_false,
      if_neg (Nat.not_lt.mpr hs), if_neg hr, if_neg (Nat.not_lt.mpr hc)]
  · intro p hp
    obtain ⟨m, hm, rfl⟩ := List.mem_map.mp hp
    obtain ⟨hm1, hcond⟩ := List.mem_filter.mp hm
    obtain ⟨hnd, hsafe⟩ := Bool.and_eq_true_iff.mp hcond
    exact ⟨m, hm1, by simpa using hnd, rfl, hsafe⟩
  · intro m hm hdir hsafe
    refine List.mem_map.mpr ⟨m, List.mem_filter.mpr ⟨hm, ?_⟩, rfl⟩
    rw [hdir, hsafe]
    rfl

/-- Witness for C2's amended statement: `../../etc/passwd` is excluded while
the valid member `a.txt` is still extracted. -/
theorem extraction_excludes_members_by_prefix_check_witness :
    ospath_join "/tmp/extracted" "a.txt" ∈
      (extract_zip_safely ⟨true, [⟨"../../etc/passwd", false, 5⟩, ⟨"a.txt", false, 5⟩], 10⟩
        "/tmp/extracted").extractedFiles ∧
    ospath_join "/tmp/extracted" "../../etc/passwd" ∉
      (extract_zip_safely ⟨true, [⟨"../../etc/passwd", false, 5⟩, ⟨"a.txt", false, 5⟩], 10⟩
        "/tmp/extracted").extractedFiles :=
  ⟨(extraction_excludes_members_by_prefix_check
      ⟨true, [⟨"../../etc/passwd", false, 5⟩, ⟨"a.txt", false, 5⟩], 10⟩ "/tmp/extracted"
      rfl (by decide) (by decide) (by decide)).2.2
        ⟨"a.txt", false, 5⟩ (by decide) rfl (by decide),
   by decide⟩

/-- C3 counterexample: the claim FAILS — on the archive-too-large rejection
path the function returns before `os.remove(zip_path)`, so the saved copy of
the uploaded blob `upload.zip` is left behind in the destination root. -/
theorem oversized_rejection_leaves_blob_behind :
    (let zip : ZipUpload := ⟨true, [⟨"big.bin", false, MAX_EXTRACTION_SIZE + 1⟩], 1000⟩
     let res := extract_zip_safely zip "/tmp/extracted"
     res.success = false ∧ res.errorMsg = tooLargeMsg ∧ res.extractedFiles = [] ∧
     res.diskFiles = ["/tmp/extracted/upload.zip"] ∧ res.diskFiles ≠ []) := by
  decide

/-- C3 (amended): an archive whose declared total uncompressed size exceeds
the ceiling is rejected with the archive-too-large error and no member is
extracted, but the saved blob `upload.zip` remains in the destination root —
as it does on every rejection path; only the success path removes it (the
surrounding endpoint later deletes the whole temp directory). -/
theorem rejection_paths_keep_saved_blob (zip : ZipUpload) (dir : String) :
    (zip.isValidZip = true →
      (zip.members.map (fun i => i.fileSize)).sum > MAX_EXTRACTION_SIZE →
      extract_zip_safely zip dir =
        ⟨false, tooLargeMsg, [], [ospath_join dir "upload.zip"]⟩) ∧
    ((extract_zip_safely zip dir).success = false →
      (extract_zip_safely zip dir).diskFiles = [ospath_join dir "upload.zip"]) ∧
    ((extract_zip_safely zip dir).success = true →
      ospath_join dir "upload.zip" ∉ (extract_zip_safely zip dir).diskFiles) := by
  refine ⟨?_, ?_, ?_⟩
  · intro hv hbig
    simp only [extract_zip_safely, hv, Bool.not_true, Bool.false_eq_true, if_false,
      if_pos hbig]
  · intro hfail
    simp only [extract_zip_safely] at hfail ⊢
    split_ifs at hfail ⊢ <;> simp_all
  · intro hsucc
    simp only [extract_zip_safely] at hsucc ⊢
    split_ifs at hsucc ⊢ <;> simp_all

/-- Witness for C3's amended statement at a concrete oversized archive. -/
theorem rejection_paths_keep_saved_blob_witness :
    extract_zip_safely ⟨true, [⟨"big.bin", false, MAX_EXTRACTION_SIZE + 1⟩], 1000⟩ "/tmp/x" =
      ⟨false, tooLargeMsg, [], [ospath_join "/tmp/x" "upload.zip"]⟩ :=
  (rejection_paths_keep_saved_blob
      ⟨true, [⟨"big.bin", false, MAX_EXTRACTION_SIZE + 1⟩], 1000⟩ "/tmp/x").1 rfl (by decide)

/-- C10: the compression-ratio test is guarded by `compressed_size > 0`, so
an archive whose saved blob has size 0 is never rejected with the
suspicious-ratio error (and no division by zero can occur); the ratio
rejection fires only when the compressed size is positive and the declared
uncompressed total exceeds the configured multiplier times it. -/
theorem ratio_check_requires_positive_compressed_size (zip : ZipUpload) (dir : String) :
    (zip.compressedSize = 0 → (extract_zip_safely zip dir).errorMsg ≠ ratioMsg) ∧
    ((extract_zip_safely zip dir).errorMsg = ratioMsg →
      0 < zip.compressedSize ∧
      (zip.members.map (fun i => i.fileSize)).sum >
        MAX_COMPRESSION_RATIO * zip.compressedSize) := by
  have hd1 : invalidZipMsg ≠ ratioMsg := by decide
  have hd2 : tooLargeMsg ≠ ratioMsg := by decide
  have hd3 : tooManyMsg ≠ ratioMsg := by decide
  have hd4 : "" ≠ ratioMsg := by decide
  constructor
  · intro hc0 hmsg
    simp only [extract_zip_safely] at hmsg
    split_ifs at hmsg with h1 h2 h3 h4 <;> dsimp only at hmsg
    · exact hd1 hmsg
    · exact hd2 hmsg
    · omega
    · exact hd3 hmsg
    · exact hd4 hmsg
  · intro hmsg
    simp only [extract_zip_safely] at hmsg
    split_ifs at hmsg with h1 h2 h3 h4 <;> dsimp only at hmsg
    · exact absurd hmsg hd1
    · exact absurd hmsg hd2
    · exact h3
    · exact absurd hmsg hd3
    · exact absurd hmsg hd4

/-- Witness for C10 at a zero-size saved blob. -/
theorem ratio_check_requires_positive_compressed_size_witness :
    (extract_zip_safely ⟨true, [⟨"a.txt", false, 5000⟩], 0⟩ "/tmp/x").errorMsg ≠ ratioMsg :=
  (ratio_check_requires_positive_compressed_size ⟨true, [⟨"a.txt", false, 5000⟩], 0⟩
    "/tmp/x").1 rfl

/-! ## Claim theorem about dispatch and result assembly -/

/-- C4: with all three categories present, an Image failure and Signal/Text
successes yield a final archive holding exactly `signals_results.zip`,
`text_results.zip` and the report, whose outcome lines mark images failed
with the reason; in general the loop visits images, signals, text in that
fixed order, skips empty categories, and a failure in one category never
prevents the following categories from being dispatched (the result and
error key sequences are exactly the order-preserving filters of the fixed
category list). -/
theorem dispatch_partial_failure_contract
    (bundle : CategorizedBundle) (outcome : Cat → DispatchOutcome)
    (hi : bundle.images ≠ []) (hs : bundle.signals ≠ []) (ht : bundle.text ≠ [])
    (hoi : (outcome Cat.images).success = false)
    (hos : (outcome Cat.signals).success = true)
    (hot : (outcome Cat.text).success = true) :
    final_zip_entries (process_categories bundle outcome).1 =
      ["signals_results.zip", "text_results.zip", "processing_report.txt"] ∧
    report_outcome_lines (process_categories bundle outcome).1
        (process_categories bundle outcome).2 =
      ["✗ images: Erreur - " ++ (outcome Cat.images).errorMsg,
       "✓ signals: Traité avec succès",
       "✓ text: Traité avec succès"] ∧
    (∀ (b : CategorizedBundle) (oc : Cat → DispatchOutcome),
      (process_categories b oc).1.map Prod.fst =
        [Cat.images, Cat.signals, Cat.text].filter (fun c => catInput b c && (oc c).success) ∧
      (process_categories b oc).2.map Prod.fst =
        [Cat.images, Cat.signals, Cat.text].filter
          (fun c => catInput b c && !(oc c).success)) := by
  have hi' : bundle.images.isEmpty = false := by
    rw [← Bool.not_eq_true, List.isEmpty_iff]; exact hi
  have hs' : bundle.signals.isEmpty = false := by
    rw [← Bool.not_eq_true, List.isEmpty_iff]; exact hs
  have ht' : bundle.text.isEmpty = false := by
    rw [← Bool.not_eq_true, List.isEmpty_iff]; exact ht
  have hres : process_categories bundle outcome =
      ([(Cat.signals, (outcome Cat.signals).zipContent),
        (Cat.text, (outcome Cat.text).zipContent)],
       [(Cat.images, (outcome Cat.images).errorMsg)]) := by
    simp [process_categories, catInput, hi', hs', ht', hoi, hos, hot]
  refine ⟨?_, ?_, ?_⟩
  · rw [hres]
    rfl
  · rw [hres]
    rfl
  · intro b oc
    constructor <;>
      (cases h1 : catInput b Cat.images <;> cases h2 : catInput b Cat.signals <;>
        cases h3 : catInput b Cat.text <;>
        cases s1 : (oc Cat.images).success <;> cases s2 : (oc Cat.signals).success <;>
        cases s3 : (oc Cat.text).success <;>
        simp [process_categories, List.filter, h1, h2, h3, s1, s2, s3])

/-- Concrete classified bundle used to witness C4. -/
def witnessBundle : CategorizedBundle := ⟨["a.dcm"], [["r.hea"]], ["n.txt"], []⟩

/-- Concrete per-category outcomes used to witness C4: images fail,
signals and text succeed. -/
def witnessOutcome : Cat → DispatchOutcome
  | Cat.images => ⟨false, [], "Erreur 500: boom"⟩
  | Cat.signals => ⟨true, [1], ""⟩
  | Cat.text => ⟨true, [2], ""⟩

/-- Witness for C4 at the concrete bundle and outcomes. -/
theorem dispatch_partial_failure_contract_witness :
    final_zip_entries (process_categories witnessBundle witnessOutcome).1 =
      ["signals_results.zip", "text_results.zip", "processing_report.txt"] ∧
    report_outcome_lines (process_categories witnessBundle witnessOutcome).1
        (process_categories witnessBundle witnessOutcome).2 =
      ["✗ images: Erreur - Erreur 500: boom",
       "✓ signals: Traité avec succès",
       "✓ text: Traité avec succès"] :=
  ⟨(dispatch_partial_failure_contract witnessBundle witnessOutcome (by decide) (by decide)
      (by decide) rfl rfl rfl).1,
   (dispatch_partial_failure_contract witnessBundle witnessOutcome (by decide) (by decide)
      (by decide) rfl rfl rfl).2.1⟩

/-! ## Claim theorems about the JobTracker -/

/-- C1: the claim that terminal states are absorbing FAILS on the code.
`update_status` assigns the new status unconditionally and `set_error` forces
Failed unconditionally, so a job already Cancelled is resurrected as
Completed by a later worker `update_status(token, Completed)` and as Failed
by a later `set_error` — instead of staying Cancelled.  Concrete run: create
a job, cancel it (as the DELETE endpoint does), then replay the worker's
terminal writes. -/
theorem terminal_status_not_absorbing :
    (let r := create_job freshTracker none
     let t2 := update_status r.2 r.1 JobStatus.cancelled none (some "Annulé par l\x27utilisateur")
     let t3 := update_status t2 r.1 JobStatus.completed (some 100) none
     let t4 := set_error t2 r.1 "Erreur lors du traitement."
     ((lookupJob t2.jobs r.1).map (fun j => j.status) = some JobStatus.cancelled) ∧
     ((lookupJob t3.jobs r.1).map (fun j => j.status) = some JobStatus.completed) ∧
     ((lookupJob t4.jobs r.1).map (fun j => j.status) = some JobStatus.failed)) := by
  decide

/-- C8: the claim that `completed_at` is written exactly once and never
overwritten FAILS on the code.  Unlike `started_at` (guarded by
`not job.started_at`), `completed_at` is restamped on every terminal update:
a job failed at clock 1 and cancelled again at clock 2 shows its
`completed_at` move from 1 to 2. -/
theorem completed_at_overwritten_on_repeated_terminal :
    (let r := create_job freshTracker none
     let t2 := update_status r.2 r.1 JobStatus.failed none none
     let t3 := update_status t2 r.1 JobStatus.cancelled none none
     ((lookupJob t2.jobs r.1).bind (fun j => j.completedAt) = some 1) ∧
     ((lookupJob t3.jobs r.1).bind (fun j => j.completedAt) = some 2)) := by
  decide

/-- C6: `update_status(token, Processing, progress=40)` followed by
`update_status(token, Completed)` leaves progress at 100 (not 40) with
`completed_at` set; `update_status` on an absent token is an exact no-op;
any supplied progress value is clamped into [0, 100]. -/
theorem update_status_completion_clamp_and_noop :
    (∀ (t : JobTracker) (tok : Nat) (j : JobProgress), lookupJob t.jobs tok = some j →
      ∃ j2, lookupJob (update_status (update_status t tok JobStatus.processing (some 40) none)
          tok JobStatus.completed none none).jobs tok = some j2 ∧
        j2.progressPercent = 100 ∧ j2.completedAt.isSome = true) ∧
    (∀ (t : JobTracker) (tok : Nat) (s : JobStatus) (p : Option Int) (m : Option String),
      lookupJob t.jobs tok = none → update_status t tok s p m = t) ∧
    (∀ (t : JobTracker) (tok : Nat) (s : JobStatus) (p : Int) (m : Option String)
      (j2 : JobProgress),
      lookupJob (update_status t tok s (some p) m).jobs tok = some j2 →
      0 ≤ j2.progressPercent ∧ j2.progressPercent ≤ 100) := by
  refine ⟨?_, ?_, ?_⟩
  · intro t tok j hj
    rw [update_status_found t tok _ _ _ j hj]
    have hl1 : lookupJob (setJob t.jobs tok
        (applyStatusUpdate j JobStatus.processing (some 40) none t.now)) tok =
        some (applyStatusUpdate j JobStatus.processing (some 40) none t.now) :=
      lookupJob_setJob_self _ _ _
    rw [update_status_found _ tok _ _ _ _ hl1]
    refine ⟨_, lookupJob_setJob_self _ _ _, (applyStatusUpdate_completed _ none none _).1, ?_⟩
    rw [(applyStatusUpdate_completed _ none none _).2]
    rfl
  · intro t tok s p m h
    exact update_status_absent t tok s p m h
  · intro t tok s p m j2 hj2
    cases hl : lookupJob t.jobs tok with
    | none =>
        rw [update_status_absent t tok s (some p) m hl, hl] at hj2
        cases hj2
    | some j0 =>
        rw [update_status_found t tok s (some p) m j0 hl] at hj2
        rw [lookupJob_setJob_self, Option.some_inj] at hj2
        rw [← hj2]
        exact applyStatusUpdate_progress_bounds j0 s p m t.now

/-- Witness for C6 at a concrete tracker holding one job with token 0. -/
theorem update_status_completion_clamp_and_noop_witness :
    (∃ j2, lookupJob (update_status (update_status (create_job freshTracker none).2 0
        JobStatus.processing (some 40) none) 0 JobStatus.completed none none).jobs 0 = some j2 ∧
      j2.progressPercent = 100 ∧ j2.completedAt.isSome = true) ∧
    update_status freshTracker 5 JobStatus.completed none none = freshTracker ∧
    (∀ j2, lookupJob (update_status (create_job freshTracker none).2 0
        JobStatus.processing (some 1000) none).jobs 0 = some j2 →
      0 ≤ j2.progressPercent ∧ j2.progressPercent ≤ 100) :=
  ⟨update_status_completion_clamp_and_noop.1 (create_job freshTracker none).2 0
      (newPendingJob freshTracker none) (by decide),
   update_status_completion_clamp_and_noop.2.1 freshTracker 5 JobStatus.completed none none
      (by decide),
   fun j2 h => update_status_completion_clamp_and_noop.2.2 (create_job freshTracker none).2 0
      JobStatus.processing 1000 none j2 h⟩

/-- C5: `create_job` always succeeds with a fresh token.  Under the registry
invariant: the returned token was not in use; the new record is inserted
Pending; capacity eviction never removes a Pending/Processing job; any
evicted job is terminal with a completion stamp no later than every
surviving terminal job's; and when no job is terminal nothing is evicted, so
the registry simply grows by one — past the soft cap if it was full. -/
theorem create_job_never_fails_evicts_only_oldest_terminal (t : JobTracker)
    (md : Option (List (String × String))) (hinv : TrackerInv t) :
    lookupJob t.jobs (create_job t md).1 = none ∧
    lookupJob (create_job t md).2.jobs (create_job t md).1 = some (newPendingJob t md) ∧
    (newPendingJob t md).status = JobStatus.pending ∧
    (∀ p ∈ t.jobs, isTerminalStatus p.2.status = false → p ∈ (create_job t md).2.jobs) ∧
    (∀ p ∈ t.jobs, p ∉ (create_job t md).2.jobs →
      (isTerminalStatus p.2.status = true ∧
       ∀ q ∈ t.jobs, isTerminalStatus q.2.status = true → q ∈ (create_job t md).2.jobs →
         p.2.completedAt.getD 0 ≤ q.2.completedAt.getD 0)) ∧
    ((∀ p ∈ t.jobs, isTerminalStatus p.2.status = false) →
      (create_job t md).2.jobs.length = t.jobs.length + 1) := by
  obtain ⟨hlt, hnd⟩ := hinv
  have hne : ∀ p ∈ t.jobs, p.1 ≠ t.nextId := fun p hp => Nat.ne_of_lt (hlt p hp)
  have hsub1 : ∀ p ∈ (if t.jobs.length ≥ t.maxJobs then cleanupOldJobs t.jobs else t.jobs),
      p ∈ t.jobs := by
    intro p hp
    by_cases hcap : t.jobs.length ≥ t.maxJobs
    · rw [if_pos hcap] at hp
      exact cleanupOldJobs_sub t.jobs hp
    · rwa [if_neg hcap] at hp
  have hfresh1 : ∀ p ∈ (if t.jobs.length ≥ t.maxJobs then cleanupOldJobs t.jobs else t.jobs),
      p.1 ≠ t.nextId := fun p hp => hne p (hsub1 p hp)
  have hset : (create_job t md).2.jobs =
      (if t.jobs.length ≥ t.maxJobs then cleanupOldJobs t.jobs else t.jobs) ++
        [(t.nextId, newPendingJob t md)] :=
    setJob_append _ _ _ hfresh1
  refine ⟨lookupJob_eq_none t.jobs t.nextId hne, ?_, rfl, ?_, ?_, ?_⟩
  · exact lookupJob_setJob_self _ _ _
  · intro p hp hnt
    rw [hset]
    refine List.mem_append_left _ ?_
    by_cases hcap : t.jobs.length ≥ t.maxJobs
    · rw [if_pos hcap]
      exact cleanupOldJobs_keeps_nonterminal t.jobs hnd hp hnt
    · rwa [if_neg hcap]
  · intro p hp hrem
    rw [hset] at hrem
    have hrem1 : p ∉ (if t.jobs.length ≥ t.maxJobs then cleanupOldJobs t.jobs else t.jobs) :=
      fun h => hrem (List.mem_append_left _ h)
    by_cases hcap : t.jobs.length ≥ t.maxJobs
    · rw [if_pos hcap] at hrem1
      obtain ⟨hterm, hold⟩ := cleanupOldJobs_removes_oldest_terminal t.jobs hnd hp hrem1
      refine ⟨hterm, ?_⟩
      intro q hq hqt hqin
      rw [hset] at hqin
      have hqin1 : q ∈ cleanupOldJobs t.jobs := by
        rcases List.mem_append.mp hqin with h | h
        · rwa [if_pos hcap] at h
        · exfalso
          have hq1 : q.1 = t.nextId := by
            rcases List.mem_singleton.mp h with rfl
            rfl
          exact hne q hq hq1
      exact hold q hq hqt hqin1
    · rw [if_neg hcap] at hrem1
      exact absurd hp hrem1
  · intro hall
    have hclean : cleanupOldJobs t.jobs = t.jobs := cleanupOldJobs_eq_self t.jobs hall
    have hjobs1 : (if t.jobs.length ≥ t.maxJobs then cleanupOldJobs t.jobs else t.jobs) =
        t.jobs := by
      by_cases hcap : t.jobs.length ≥ t.maxJobs
      · rw [if_pos hcap, hclean]
      · rw [if_neg hcap]
    rw [hset, hjobs1, List.length_append]
    rfl

/-! ## Lemmas about signal grouping -/

lemma mem_firstSeen_aux (l : List String) (acc : List String) (y : String) :
    (y ∈ l.foldl (fun acc x => if x ∈ acc then acc else acc ++ [x]) acc) ↔ y ∈ acc ∨ y ∈ l := by
  induction l generalizing acc with
  | nil => simp
  | cons x l ih =>
      simp only [List.foldl_cons, ih, List.mem_cons]
      by_cases hx : x ∈ acc
      · rw [if_pos hx]
        constructor
        · rintro (h | h)
          · exact Or.inl h
          · exact Or.inr (Or.inr h)
        · rintro (h | rfl | h)
          · exact Or.inl h
          · exact Or.inl hx
          · exact Or.inr h
      · rw [if_neg hx]
        simp only [List.mem_append, List.mem_singleton]
        tauto

lemma mem_firstSeen (l : List String) (y : String) : y ∈ firstSeen l ↔ y ∈ l := by
  unfold firstSeen
  rw [mem_firstSeen_aux]
  simp

lemma firstSeen_append (l : List String) (x : String) :
    firstSeen (l ++ [x]) = if x ∈ firstSeen l then firstSeen l else firstSeen l ++ [x] := by
  unfold firstSeen
  rw [List.foldl_append]
  rfl

/-- The canonical shape of the grouping dictionary after processing `done`:
stems in first-seen order, each paired with its fibre of `done`. -/
def canonGroups (done : List String) : List (String × List String) :=
  (firstSeen (done.map pathStem)).map
    (fun st => (st, done.filter (fun f => decide (pathStem f = st))))

lemma insertGrouped_canon (done : List String) (x : String) :
    insertGrouped (canonGroups done) x = canonGroups (done ++ [x]) := by
  by_cases hmem : pathStem x ∈ done.map pathStem
  · have hin : pathStem x ∈ firstSeen (done.map pathStem) := (mem_firstSeen _ _).mpr hmem
    have hany : (canonGroups done).any (fun p => decide (p.1 = pathStem x)) = true := by
      refine List.any_eq_true.mpr ?_
      exact ⟨(pathStem x, done.filter (fun f => decide (pathStem f = pathStem x))),
        List.mem_map.mpr ⟨pathStem x, hin, rfl⟩, by simp⟩
    unfold insertGrouped
    rw [if_pos hany]
    unfold canonGroups
    rw [List.map_map]
    have hfs : firstSeen ((done ++ [x]).map pathStem) = firstSeen (done.map pathStem) := by
      rw [List.map_append, List.map_singleton, firstSeen_append, if_pos hin]
    rw [hfs]
    refine List.map_congr_left ?_
    intro st _
    dsimp only [Function.comp]
    by_cases hstx : st = pathStem x
    · rw [if_pos hstx, List.filter_append]
      have hfx : List.filter (fun f => decide (pathStem f = st)) [x] = [x] := by
        simp [List.filter, decide_eq_true hstx.symm]
      rw [hfx]
    · rw [if_neg hstx, List.filter_append]
      have hfx : List.filter (fun f => decide (pathStem f = st)) [x] = [] := by
        simp [List.filter, decide_eq_false (Ne.symm hstx)]
      rw [hfx, List.append_nil]
  · have hnin : pathStem x ∉ firstSeen (done.map pathStem) :=
      fun h => hmem ((mem_firstSeen _ _).mp h)
    have hany : (canonGroups done).any (fun p => decide (p.1 = pathStem x)) = false := by
      refine List.any_eq_false.mpr ?_
      intro p hp hdec
      obtain ⟨st, hst, rfl⟩ := List.mem_map.mp hp
      exact hnin (of_decide_eq_true hdec ▸ hst)
    unfold insertGrouped
    rw [Bool.eq_false_iff] at hany
    rw [if_neg hany]
    unfold canonGroups
    have hfs : firstSeen ((done ++ [x]).map pathStem) =
        firstSeen (done.map pathStem) ++ [pathStem x] := by
      rw [List.map_append, List.map_singleton, firstSeen_append, if_neg hnin]
    rw [hfs, List.map_append, List.map_singleton]
    congr 1
    · refine List.map_congr_left ?_
      intro st hst
      have hstx : pathStem x ≠ st := fun h => hnin (h ▸ hst)
      have hxe : decide (pathStem x = st) = false := decide_eq_false hstx
      rw [List.filter_append]
      have : [x].filter (fun f => decide (pathStem f = st)) = [] := by
        simp [List.filter, hxe]
      rw [this, List.append_nil]
    · have hdone : done.filter (fun f => decide (pathStem f = pathStem x)) = [] := by
        refine List.filter_eq_nil_iff.mpr ?_
        intro f hf hdec
        exact hmem (List.mem_map.mpr ⟨f, hf, of_decide_eq_true hdec⟩)
      rw [List.filter_append, hdone, List.nil_append]
      have : [x].filter (fun f => decide (pathStem f = pathStem x)) = [x] := by
        simp [List.filter]
      rw [this]

lemma foldl_insertGrouped_canon (rest : List String) (done : List String) :
    rest.foldl insertGrouped (canonGroups done) = canonGroups (done ++ rest) := by
  induction rest generalizing done with
  | nil => rw [List.append_nil]; rfl
  | cons x rest ih =>
      rw [List.foldl_cons, insertGrouped_canon, ih, List.append_assoc, List.singleton_append]

/-- The source's grouping agrees with the spec-side characterisation. -/
lemma group_signal_files_eq_spec (files : List String) :
    group_signal_files files = groupSignalFilesSpec files := by
  have h := foldl_insertGrouped_canon files []
  unfold group_signal_files
  have h0 : canonGroups [] = [] := rfl
  rw [← h0, h, List.nil_append]
  unfold canonGroups groupSignalFilesSpec
  rw [List.map_map]
  rfl

/-- Every group delivered by the source's grouping is non-empty. -/
lemma group_signal_files_groups_nonempty (sigs : List String) :
    ∀ g ∈ group_signal_files sigs, g ≠ [] := by
  intro g hg
  rw [group_signal_files_eq_spec] at hg
  obtain ⟨st, hst, rfl⟩ := List.mem_map.mp hg
  obtain ⟨f, hf, rfl⟩ := List.mem_map.mp ((mem_firstSeen _ _).mp hst)
  exact List.ne_nil_of_mem (List.mem_filter.mpr ⟨hf, decide_eq_true rfl⟩)

/-! ## Claim theorems about classification -/

/-- C7: classification groups signal files by filename stem — the grouping
equals the spec-side description (stems in first-seen order, each mapped to
its input-ordered fibre, so order within a group is extraction order and the
function is deterministic); any two same-stem files share a group; files of
different stems never share a group. -/
theorem signal_grouping_by_stem_first_seen :
    (∀ files : List String, group_signal_files files = groupSignalFilesSpec files) ∧
    (∀ (files : List String) (a b : String), a ∈ files → b ∈ files →
      pathStem a = pathStem b →
      ∃ g ∈ group_signal_files files, a ∈ g ∧ b ∈ g) ∧
    (∀ (files : List String) (g : List String), g ∈ group_signal_files files →
      ∀ a ∈ g, ∀ b ∈ g, pathStem a = pathStem b) := by
  refine ⟨group_signal_files_eq_spec, ?_, ?_⟩
  · intro files a b ha hb hab
    refine ⟨files.filter (fun f => decide (pathStem f = pathStem a)), ?_, ?_, ?_⟩
    · rw [group_signal_files_eq_spec]
      refine List.mem_map.mpr ⟨pathStem a, ?_, rfl⟩
      exact (mem_firstSeen _ _).mpr (List.mem_map.mpr ⟨a, ha, rfl⟩)
    · exact List.mem_filter.mpr ⟨ha, decide_eq_true rfl⟩
    · exact List.mem_filter.mpr ⟨hb, decide_eq_true hab.symm⟩
  · intro files g hg a hag b hbg
    rw [group_signal_files_eq_spec] at hg
    obtain ⟨st, _, rfl⟩ := List.mem_map.mp hg
    have h1 := of_decide_eq_true (List.mem_filter.mp hag).2
    have h2 := of_decide_eq_true (List.mem_filter.mp hbg).2
    rw [h1, h2]

/-- Witness for C7: `rec001.hea` and `rec001.dat` land in one group. -/
theorem signal_grouping_by_stem_first_seen_witness :
    ∃ g ∈ group_signal_files ["rec001.hea", "rec001.dat", "rec002.hea"],
      "rec001.hea" ∈ g ∧ "rec001.dat" ∈ g :=
  signal_grouping_by_stem_first_seen.2.1 ["rec001.hea", "rec001.dat", "rec002.hea"]
    "rec001.hea" "rec001.dat" (by decide) (by decide) (by decide)

/-- C9 counterexample: the claimed 1–3 bound on Signal group size FAILS —
four signal files sharing one stem are put in a single group of four (no
upper bound is enforced by the code). -/
theorem signal_group_can_exceed_three :
    ∃ g ∈ (categorize_files ["rec001.hea", "rec001.dat", "rec001.qrs", "rec001.edf"]).signals,
      3 < g.length := by
  decide

/-- C9 (amended): every Signal group produced by classification contains at
least one path; the code enforces no upper bound of three — a group holds
all input files sharing its stem. -/
theorem signal_groups_nonempty (files : List String) :
    ∀ g ∈ (categorize_files files).signals, g ≠ [] := by
  intro g hg
  unfold categorize_files at hg
  dsimp only at hg
  split at hg
  · exact absurd hg (List.not_mem_nil g)
  · exact group_signal_files_groups_nonempty _ g hg

/-- Witness for C9's amended statement at a one-file input. -/
theorem signal_groups_nonempty_witness :
    ["a.hea"] ∈ (categorize_files ["a.hea"]).signals ∧ (["a.hea"] : List String) ≠ [] :=
  ⟨by decide, signal_groups_nonempty ["a.hea"] ["a.hea"] (by decide)⟩

/-- A one-slot registry already at capacity with a single Pending job:
used to witness C5. -/
def capTracker : JobTracker :=
  ⟨[(0, ⟨0, JobStatus.pending, 0, "", 0, none, none, none, none, []⟩)], 1, 1, 5⟩

/-- Witness for C5: at capacity with no terminal job, creation still
succeeds and the registry grows past the soft cap. -/
theorem create_job_never_fails_evicts_only_oldest_terminal_witness :
    lookupJob capTracker.jobs (create_job capTracker none).1 = none ∧
    (create_job capTracker none).2.jobs.length = capTracker.jobs.length + 1 ∧
    capTracker.jobs.length ≥ capTracker.maxJobs :=
  ⟨(create_job_never_fails_evicts_only_oldest_terminal capTracker none
      ⟨by decide, by decide⟩).1,
   (create_job_never_fails_evicts_only_oldest_terminal capTracker none
      ⟨by decide, by decide⟩).2.2.2.2.2 (by decide),
   by decide⟩

end Medannote
